import Mathlib

/-!
Verification of the forecast pipeline (analysis service): a shallow
embedding of the data preparation, model selection, recursive forecasting
and trading-strategy code, together with theorems settling the spec claims.

Conventions of the embedding:
* prices are rationals (`ℚ`); a pandas `NaN` cell never survives to a value
  we read, because every construction below guards its indices exactly the
  way `dropna` does in the source;
* Python exceptions (`ZeroDivisionError`, `IndexError`, ...) are modelled
  with `Except PyErr`; `try/except` blocks become a `match` on the
  `Except` value;
* fitted scikit-learn / statsmodels models are opaque: the selection logic
  is parametric in a model type `μ`, and each `train_*` function takes an
  abstract fitting outcome (`none` = the library raised) in place of the
  actual numeric fit.
-/

namespace ForecastProject

/-- Python runtime errors that the embedded code can raise. -/
inductive PyErr where
  | zeroDivision
  | indexError
  | typeError
  deriving DecidableEq, Repr

/-- Division `a / b` with CPython scalar semantics: raises
`ZeroDivisionError` when `b = 0`.  Caveat: in the running system some
denominators are numpy `float64` scalars (notably signal prices, which
come out of the `np.array` built in `find_local_extrema`), and numpy
division by zero returns `inf`/`nan` with a warning instead of raising —
behavior a rational embedding cannot express.  Every theorem below
therefore stays where the two semantics agree: each division it exercises
has a hypothesis or a concrete value making the denominator nonzero, and
the one counterexample about error propagation (`C8_counterexample`)
reaches no division at all. -/
def pydiv (a b : ℚ) : Except PyErr ℚ :=
  if b = 0 then .error .zeroDivision else .ok (a / b)

/-- Python `xs[0]` on a list: raises `IndexError` when empty. -/
def pyFirst (l : List ℚ) : Except PyErr ℚ :=
  match l.head? with
  | none => .error .indexError
  | some p => .ok p

/-- Python `xs[-1]` on a list: raises `IndexError` when empty. -/
def pyLast (l : List ℚ) : Except PyErr ℚ :=
  match l.getLast? with
  | none => .error .indexError
  | some p => .ok p

/-! ## Feature construction (model_trainer.prepare_ml_data, forecaster._get_last_features)

`prepare_ml_data` builds, for each row `t` of the price frame, the columns
`lag_1 .. lag_30` with `lag_i = Close[t-i]` (`Close.shift(i)`), the target
`Close[t+1]` (`Close.shift(-1)`), then drops every row holding a NaN: a row
survives exactly when `30 ≤ t` and `t + 1 < len`.  `X` drops the `target`
and `Close` columns, leaving exactly the 30 lag columns in order. -/

/-- The row of lag features at time `t`: `[Close[t-1], ..., Close[t-30]]`.
The default `0` of `getD` is never read at the call sites below: they all
restrict `t` so that every index `t - i` is in bounds (the rows where a lag
would be NaN are dropped by `dropna`, and the forecaster's seed row is the
last row of a series of length ≥ 31 in the running system). -/
def lagVec (s : List ℚ) (t : ℕ) : List ℚ :=
  (List.range 30).map (fun i => s.getD (t - (i + 1)) 0)

/-- The supervised rows of `prepare_ml_data` after `dropna`: pairs
`(lag features at t, Close[t+1])` for every `t` with `30 ≤ t` and
`t + 1 < len` (the source keeps exactly the rows where all 30 lags and the
target are non-NaN). -/
def mlRows (s : List ℚ) : List (List ℚ × ℚ) :=
  ((List.range s.length).filter (fun t => decide (30 ≤ t) && decide (t + 1 < s.length))).map
    (fun t => (lagVec s t, s.getD (t + 1) 0))

/-- The split index `int(len * (1 - test_size))` of `prepare_ml_data` and
`train_arima` (`int` truncates; the product is nonnegative, so this is the
floor). -/
def splitIdx (n : ℕ) (testSize : ℚ) : ℕ :=
  (⌊(n : ℚ) * (1 - testSize)⌋).toNat

/-- `ModelTrainer.prepare_ml_data`: build the supervised table, then split
it chronologically at `splitIdx`, returning
`(X_train, X_test, y_train, y_test)`. -/
def prepare_ml_data (s : List ℚ) (testSize : ℚ) :
    List (List ℚ) × List (List ℚ) × List ℚ × List ℚ :=
  let rows := mlRows s
  let X := rows.map Prod.fst
  let y := rows.map Prod.snd
  let k := splitIdx X.length testSize
  (X.take k, X.drop k, y.take k, y.drop k)

/-- The chronological split of the raw close series inside
`ModelTrainer.train_arima`: `data[:split_idx], data[split_idx:]`. -/
def train_arima_split (s : List ℚ) (testSize : ℚ) : List ℚ × List ℚ :=
  let k := splitIdx s.length testSize
  (s.take k, s.drop k)

/-- `Forecaster._get_last_features`: build the 30 lag columns on the full
history and keep the last row, dropping the `Close` column — i.e. the lag
vector at `t = len - 1`. -/
def get_last_features (s : List ℚ) : List ℚ :=
  (List.range 30).map (fun i => s.getD (s.length - 1 - (i + 1)) 0)

/-- Modelled from the spec: the spec's FeatureVector is
`[lag_1 .. lag_30, rolling mean(7), rolling std(7), price change]`, hence
has `30 + 3` components.  (This is the shape `DataLoader.prepare_features`
would produce; that builder exists in the source but is never invoked by
the trainer or the forecaster.) -/
def specFeatureVectorLength : ℕ := 30 + 3

/-! ## Model training and selection (model_trainer.train_* / train_and_select_best)

The fitted models themselves are opaque (`μ`).  Each `train_*` function
receives the outcome of the library fit as `Option (μ × ℚ × ℚ)` —
`some (model, rmse, mape)` when the fit and evaluation succeed, `none`
when the library raises (the source catches that and returns
`(None, inf, inf)` — for the LSTM placeholder, a 4-tuple).  The selection
loop unpacks each result into three variables; a 4-tuple raises a
`ValueError` there, which the loop's `except` swallows (`continue`). -/

/-- The names of the four candidates plus the all-failed fallback name. -/
inductive ModelName where
  | randomForest
  | ridgeRegression
  | arima
  | lstm
  | persistence
  deriving DecidableEq, Repr

/-- A value returned by one `train_*` method: a 3-tuple
`(model, rmse, mape)` or — only for `train_simple_lstm` — a 4-tuple with a
trailing description string.  `rmse`/`mape` live in `WithTop ℚ`, with `⊤`
standing for `float('inf')`. -/
inductive TrainResult (μ : Type) where
  | triple (model : Option μ) (rmse mape : WithTop ℚ)
  | quadruple (model : Option μ) (rmse mape : WithTop ℚ) (description : String)

/-- `ModelTrainer.train_random_forest`: on success returns
`(model, rmse, mape)`, on an internal exception `(None, inf, inf)`. -/
def train_random_forest (μ : Type) (fit : Option (μ × ℚ × ℚ)) : TrainResult μ :=
  match fit with
  | some (m, rmse, mape) => .triple (some m) (rmse : WithTop ℚ) (mape : WithTop ℚ)
  | none => .triple none ⊤ ⊤

/-- `ModelTrainer.train_ridge_regression`: same shape as the random
forest. -/
def train_ridge_regression (μ : Type) (fit : Option (μ × ℚ × ℚ)) : TrainResult μ :=
  match fit with
  | some (m, rmse, mape) => .triple (some m) (rmse : WithTop ℚ) (mape : WithTop ℚ)
  | none => .triple none ⊤ ⊤

/-- `ModelTrainer.train_arima`: same shape as the random forest. -/
def train_arima (μ : Type) (fit : Option (μ × ℚ × ℚ)) : TrainResult μ :=
  match fit with
  | some (m, rmse, mape) => .triple (some m) (rmse : WithTop ℚ) (mape : WithTop ℚ)
  | none => .triple none ⊤ ⊤

/-- `ModelTrainer.train_simple_lstm`: returns a 4-tuple on both paths —
`(model, rmse, mape, 'Linear Regression (LSTM placeholder)')` on success,
`(None, inf, inf, 'Failed')` on an exception. -/
def train_simple_lstm (μ : Type) (fit : Option (μ × ℚ × ℚ)) : TrainResult μ :=
  match fit with
  | some (m, rmse, mape) =>
      .quadruple (some m) (rmse : WithTop ℚ) (mape : WithTop ℚ) "Linear Regression (LSTM placeholder)"
  | none => .quadruple none ⊤ ⊤ "Failed"

/-- The unpacking `model, rmse, mape = train_func()` inside the selection
loop: a 3-tuple yields `(model, rmse)` (the `mape` is only logged), a
4-tuple raises `ValueError`, which the surrounding `except` turns into
`continue` — modelled as `none`. -/
def loopUnpack {μ : Type} : TrainResult μ → Option (Option μ × WithTop ℚ)
  | .triple m rmse _ => some (m, rmse)
  | .quadruple _ _ _ _ => none

/-- The running best's RMSE: `float('inf')` before any candidate is
accepted. -/
def bestRmse {μ : Type} : Option (μ × WithTop ℚ × ModelName) → WithTop ℚ
  | none => ⊤
  | some (_, r, _) => r

/-- The selection loop of `train_and_select_best`: for each candidate,
skip it if its iteration raised (`none`) or its model is `None`; otherwise
accept it when its RMSE is strictly below the running best
(`rmse < best_rmse`, so ties keep the earlier candidate). -/
def selectLoop {μ : Type} :
    Option (μ × WithTop ℚ × ModelName) →
    List (ModelName × Option (Option μ × WithTop ℚ)) →
    Option (μ × WithTop ℚ × ModelName)
  | best, [] => best
  | best, (_, none) :: rest => selectLoop best rest
  | best, (_, some (none, _)) :: rest => selectLoop best rest
  | best, (name, some (some m, rmse)) :: rest =>
    if rmse < bestRmse best then selectLoop (some (m, rmse, name)) rest
    else selectLoop best rest

/-- The tail of `train_and_select_best`: if no candidate was accepted,
fall back to `(None, inf, 'Persistence')`; otherwise return the best
model, its RMSE and its name. -/
def trainAndSelectBest {μ : Type}
    (cands : List (ModelName × Option (Option μ × WithTop ℚ))) :
    Option μ × WithTop ℚ × ModelName :=
  match selectLoop none cands with
  | none => (none, ⊤, .persistence)
  | some (m, r, name) => (some m, r, name)

/-- The candidate list of `train_and_select_best`, in source order, each
entry already run through the loop's 3-variable unpacking. -/
def fourCands (μ : Type) (rfFit ridgeFit arFit lstmFit : Option (μ × ℚ × ℚ)) :
    List (ModelName × Option (Option μ × WithTop ℚ)) :=
  [ (.randomForest, loopUnpack (train_random_forest μ rfFit)),
    (.ridgeRegression, loopUnpack (train_ridge_regression μ ridgeFit)),
    (.arima, loopUnpack (train_arima μ arFit)),
    (.lstm, loopUnpack (train_simple_lstm μ lstmFit)) ]

/-- `ModelTrainer.train_and_select_best`, parametric in the four fitting
outcomes. -/
def train_and_select_best (μ : Type) (rfFit ridgeFit arFit lstmFit : Option (μ × ℚ × ℚ)) :
    Option μ × WithTop ℚ × ModelName :=
  trainAndSelectBest (fourCands μ rfFit ridgeFit arFit lstmFit)

/-- The candidates that "trained successfully" from the loop's point of
view: their iteration did not raise and their model is not `None`. -/
def successes {μ : Type} :
    List (ModelName × Option (Option μ × WithTop ℚ)) →
    List (ModelName × μ × WithTop ℚ)
  | [] => []
  | (_, none) :: rest => successes rest
  | (_, some (none, _)) :: rest => successes rest
  | (name, some (some m, r)) :: rest => (name, m, r) :: successes rest

/-- Reference selector: the first element strictly below `bound` that is a
minimum of the remainder (the value `selectLoop` converges to). -/
def firstMinBelow {μ : Type} (bound : WithTop ℚ) :
    List (ModelName × μ × WithTop ℚ) → Option (ModelName × μ × WithTop ℚ)
  | [] => none
  | x :: xs =>
    if x.2.2 < bound then
      match firstMinBelow x.2.2 xs with
      | none => some x
      | some y => some y
    else firstMinBelow bound xs

/-! ## Recursive forecasting (forecaster._update_features / _recursive_forecast_ml)

The single-step model is abstracted as `step : List ℚ → Option ℚ` —
`model.predict([features])[0]`, with `none` when the prediction raises.
The `try/except` of `_recursive_forecast_ml` wraps the whole loop: an
exception anywhere discards everything accumulated so far and returns
`[current_price] * days`. -/

/-- `Forecaster._update_features`: shift every lag one position older
(`new[i] = new[i-1]` for `i = 29 .. 1`, reading the not-yet-overwritten
lower index) and insert the new prediction at position 0 (`lag_1`).  On
the 30-slot feature row this is exactly `prediction :: first 29 old
slots`. -/
def updateFeatures (v : List ℚ) (p : ℚ) : List ℚ :=
  p :: v.take 29

/-- The body of `_recursive_forecast_ml`'s loop, inside its `try`: predict
from the current features, append, update the features; `none` = some
step raised, propagating to the `except`. -/
def recForecastGo (step : List ℚ → Option ℚ) : ℕ → List ℚ → Option (List ℚ)
  | 0, _ => some []
  | n + 1, v =>
    match step v with
    | none => none
    | some p => (recForecastGo step n (updateFeatures v p)).map (fun rest => p :: rest)

/-- `Forecaster._recursive_forecast_ml`: run the loop; if any step raised,
the `except` returns `[self.current_price] * days` instead (the partial
forecast is discarded, not kept). -/
def recursive_forecast_ml (step : List ℚ → Option ℚ) (currentPrice : ℚ)
    (days : ℕ) (seed : List ℚ) : List ℚ :=
  match recForecastGo step days seed with
  | some l => l
  | none => List.replicate days currentPrice

/-! ## Strategist (strategist.py) -/

/-- A detected extremum: `(day index, price)`. -/
abbrev ExtPoint := ℕ × ℚ

/-- The Python slice `l[a:b]` for `0 ≤ a ≤ b` (the call sites below keep
both bounds in range). -/
def pySlice (l : List ℚ) (a b : ℕ) : List ℚ :=
  (l.drop a).take (b - a)

/-- The local-minimum test of `find_local_extrema` at day `i`:
`prices[i] ≤` every element of `prices[i-window:i]` and of
`prices[i+1:i+window+1]`. -/
def isLocalMin (p : List ℚ) (w i : ℕ) : Bool :=
  (pySlice p (i - w) i).all (fun x => decide (p.getD i 0 ≤ x)) &&
  (pySlice p (i + 1) (i + w + 1)).all (fun x => decide (p.getD i 0 ≤ x))

/-- The local-maximum test, symmetric with `≥`. -/
def isLocalMax (p : List ℚ) (w i : ℕ) : Bool :=
  (pySlice p (i - w) i).all (fun x => decide (x ≤ p.getD i 0)) &&
  (pySlice p (i + 1) (i + w + 1)).all (fun x => decide (x ≤ p.getD i 0))

/-- `InvestmentStrategist.find_local_extrema`: scan
`i ∈ range(window, days - window)` and collect `(i, prices[i])` into the
buy (local min) and sell (local max) lists; a flat day can land in both. -/
def find_local_extrema (p : List ℚ) (w : ℕ) : List ExtPoint × List ExtPoint :=
  let idxs := List.range' w (p.length - w - w)
  ((idxs.filter (fun i => isLocalMin p w i)).map (fun i => (i, p.getD i 0)),
   (idxs.filter (fun i => isLocalMax p w i)).map (fun i => (i, p.getD i 0)))

/-- The trading state / signal actions; `hold` is only the initial state
of the signal generator, never an emitted action. -/
inductive TradeAction where
  | buy
  | sell
  | hold
  deriving DecidableEq, Repr

/-- One emitted trading signal `(action, day, price)`. -/
structure TradingSignal where
  action : TradeAction
  day : ℕ
  price : ℚ
  deriving DecidableEq, Repr

/-- Stable insertion into a day-sorted list: the new point goes after
every point with day ≤ its own, as Python's stable `sorted` orders equal
keys by original position. -/
def insertByDay (x : ExtPoint) : List ExtPoint → List ExtPoint
  | [] => [x]
  | y :: ys => if y.1 ≤ x.1 then y :: insertByDay x ys else x :: y :: ys

/-- Python's `sorted(points, key=day)` (stable). -/
def sortByDay (l : List ExtPoint) : List ExtPoint :=
  l.foldl (fun acc x => insertByDay x acc) []

/-- The walk of `generate_trading_signals` over the merged point list:
emit `buy` when the point is a buy point and the current action is not
`'buy'`; otherwise emit `sell` when the point is a sell point and the
current action is `'buy'`; otherwise skip. -/
def signalsGo (buyPts sellPts : List ExtPoint) :
    TradeAction → List ExtPoint → List TradingSignal
  | _, [] => []
  | cur, (d, p) :: rest =>
    if (d, p) ∈ buyPts ∧ cur ≠ .buy then
      ⟨.buy, d, p⟩ :: signalsGo buyPts sellPts .buy rest
    else if (d, p) ∈ sellPts ∧ cur = .buy then
      ⟨.sell, d, p⟩ :: signalsGo buyPts sellPts .sell rest
    else signalsGo buyPts sellPts cur rest

/-- `InvestmentStrategist.generate_trading_signals`: sort the union of buy
and sell points by day (stably) and walk it starting from
`current_action = 'hold'`. -/
def generate_trading_signals (buyPts sellPts : List ExtPoint) : List TradingSignal :=
  signalsGo buyPts sellPts .hold (sortByDay (buyPts ++ sellPts))

/-- The kind of a recorded transaction line. -/
inductive TxnKind where
  | buyTxn
  | sellTxn
  | finalSale
  deriving DecidableEq, Repr

/-- One transaction line of the simulation log.  `amount` carries the
quantity the source interpolates into the line: shares bought for a buy,
proceeds for a sell or the final liquidation. -/
structure Transaction where
  kind : TxnKind
  day : ℕ
  price : ℚ
  amount : ℚ
  deriving DecidableEq, Repr

/-- The `profit_info` dictionary built by `calculate_profit` and by the
fallback. -/
structure ProfitInfo where
  initial_investment : ℚ
  final_value : ℚ
  profit : ℚ
  profit_percent : ℚ
  transactions : List Transaction
  deriving DecidableEq, Repr

/-- The second component `calculate_profit` returns: the info dictionary,
or — only when there are no signals — a plain message string. -/
inductive ProfitResult where
  | info (pinfo : ProfitInfo)
  | noSignalsText
  deriving DecidableEq, Repr

/-- One iteration of `calculate_profit`'s loop over the signals, on the
state `(cash, shares, transactions)`: a buy with `cash > 0` converts all
cash to shares at the signal price; a sell with `shares > 0` converts all
shares to cash; anything else leaves the state unchanged.  The division
uses `pydiv`; in the source the signal price is a numpy `float64` (from
the `np.array` in `find_local_extrema`), so a buy at price 0 actually
yields `inf` shares without raising — see the `pydiv` caveat.  All
theorems about this function assume positive signal prices, where that
branch is dead and the embedding coincides with the source. -/
def profitStep (st : ℚ × ℚ × List Transaction) (sig : TradingSignal) :
    Except PyErr (ℚ × ℚ × List Transaction) :=
  if sig.action = .buy ∧ 0 < st.1 then
    (pydiv st.1 sig.price).map (fun sharesBought =>
      (0, st.2.1 + sharesBought, st.2.2 ++ [⟨.buyTxn, sig.day, sig.price, sharesBought⟩]))
  else if sig.action = .sell ∧ 0 < st.2.1 then
    .ok (st.2.1 * sig.price, 0,
      st.2.2 ++ [⟨.sellTxn, sig.day, sig.price, st.2.1 * sig.price⟩])
  else
    .ok st

/-- `InvestmentStrategist.calculate_profit`: with no signals return
`(0, message)`; otherwise run the loop from `(investment, 0, [])`, then —
if shares are still held — liquidate at `forecast_prices[-1]` recording a
final transaction at day `len(forecast_prices)`, and report
`profit = cash - investment` and
`profit_percent = profit / investment * 100`.  The two divisions carry
the `pydiv` caveat: the theorems below exercise them only with positive
signal prices and nonzero investment. -/
def calculate_profit (forecastPrices : List ℚ) (investment : ℚ)
    (tradingSignals : List TradingSignal) : Except PyErr (ℚ × ProfitResult) :=
  match tradingSignals with
  | [] => .ok (0, .noSignalsText)
  | _ :: _ => do
    let st ← tradingSignals.foldlM profitStep (investment, 0, [])
    let fin ←
      if 0 < st.2.1 then do
        let finalPrice ← pyLast forecastPrices
        Except.ok (st.2.1 * finalPrice,
          st.2.2 ++ [⟨.finalSale, forecastPrices.length, finalPrice, st.2.1 * finalPrice⟩])
      else Except.ok (st.1, st.2.2)
    let profit := fin.1 - investment
    let pct ← pydiv profit investment
    Except.ok (profit, .info ⟨investment, fin.1, profit, pct * 100, fin.2⟩)

/-- The two shapes of recommendation text the strategist can return (the
formatted Russian strings are presentation only; their construction cannot
raise). -/
inductive RecText where
  | strategyText
  | fallbackText
  deriving DecidableEq, Repr

/-- `InvestmentStrategist._generate_fallback_recommendations`: buy all at
`forecast_prices[0]`, sell all at `forecast_prices[-1]`, and report the
resulting profit.  On an empty path the element access raises
`IndexError` (faithful for any scalar type).  The zero-first-price and
zero-investment divisions carry the `pydiv` caveat (CPython scalars
raise, numpy scalars yield `inf`/`nan`); the theorems below assume both
nonzero, where all semantics agree. -/
def generate_fallback_recommendations (forecastPrices : List ℚ) (investment : ℚ) :
    Except PyErr (RecText × ProfitInfo) := do
  let initialPrice ← pyFirst forecastPrices
  let finalPrice ← pyLast forecastPrices
  let shares ← pydiv investment initialPrice
  let finalValue := shares * finalPrice
  let profit := finalValue - investment
  let pct ← pydiv profit investment
  Except.ok (.fallbackText,
    ⟨investment, finalValue, profit, pct * 100,
      [⟨.buyTxn, 0, initialPrice, shares⟩,
       ⟨.sellTxn, forecastPrices.length, finalPrice, finalValue⟩]⟩)

/-- The `try` body of `generate_recommendations`: detect extrema with the
default window 3, fall back when none are found or when no signal
results, otherwise compute the profit and return the formatted
strategy. -/
def recommendations_body (forecastPrices : List ℚ) (investment : ℚ) :
    Except PyErr (RecText × ProfitInfo) := do
  let pts := find_local_extrema forecastPrices 3
  if pts.1 = [] ∧ pts.2 = [] then
    generate_fallback_recommendations forecastPrices investment
  else
    let sigs := generate_trading_signals pts.1 pts.2
    if sigs = [] then generate_fallback_recommendations forecastPrices investment
    else do
      let pr ← calculate_profit forecastPrices investment sigs
      match pr.2 with
      | .info pinfo => Except.ok (.strategyText, pinfo)
      | .noSignalsText => Except.error PyErr.typeError

/-- `InvestmentStrategist.generate_recommendations`: run the `try` body;
the `except` routes any failure of that body to the fallback — whose own
failures propagate out of the handler. -/
def generate_recommendations (forecastPrices : List ℚ) (investment : ℚ) :
    Except PyErr (RecText × ProfitInfo) :=
  match recommendations_body forecastPrices investment with
  | .ok r => .ok r
  | .error _ => generate_fallback_recommendations forecastPrices investment

/-! ## Reduction lemmas for the `Except` monad -/

theorem exceptBind_ok {ε α β : Type} (a : α) (f : α → Except ε β) :
    (Except.ok a : Except ε α) >>= f = f a := rfl

theorem exceptBind_error {ε α β : Type} (e : ε) (f : α → Except ε β) :
    (Except.error e : Except ε α) >>= f = Except.error e := rfl

theorem exceptMap_ok {ε α β : Type} (f : α → β) (a : α) :
    Except.map f (Except.ok a : Except ε α) = Except.ok (f a) := rfl

theorem exceptMap_error {ε α β : Type} (f : α → β) (e : ε) :
    Except.map f (Except.error e : Except ε α) = Except.error e := rfl

/-! ## Concrete inputs used by counterexamples and witnesses -/

/-- Equality of `Except` values is decidable componentwise. -/
instance {ε α : Type} [DecidableEq ε] [DecidableEq α] : DecidableEq (Except ε α) := fun a b =>
  match a, b with
  | .ok x, .ok y =>
    if h : x = y then .isTrue (by rw [h]) else .isFalse (by intro hc; cases hc; exact h rfl)
  | .error x, .error y =>
    if h : x = y then .isTrue (by rw [h]) else .isFalse (by intro hc; cases hc; exact h rfl)
  | .ok _, .error _ => .isFalse (by intro hc; cases hc)
  | .error _, .ok _ => .isFalse (by intro hc; cases hc)

/-- A 33-point price series `0, 1, ..., 32` (long enough to give the
supervised table two rows). -/
def c33 : List ℚ := (List.range 33).map (fun t => (t : ℚ))

/-- A single-step model that predicts 7 from the initial seed and raises
on every later feature vector (its `lag_1` is then 7, not 1). -/
def c4step : List ℚ → Option ℚ :=
  fun v => if v.head? = some 1 then some 7 else none

/-- The 30-long seed of all-ones features. -/
def c4seed : List ℚ := List.replicate 30 1

/-- The scenario forecast path of the spec. -/
def c5path : List ℚ := [100, 90, 80, 90, 100, 90, 80]

/-- A signal sequence whose sell price is 0. -/
def c7sigs : List TradingSignal := [⟨.buy, 0, 1⟩, ⟨.sell, 1, 0⟩]

/-! ## C1 — chronological train/test splits never leak -/

/-- C1: both chronological splits are order-preserving prefix/suffix
splits: in `prepare_ml_data`, the train rows are the supervised table's
rows before `splitIdx` and the test rows are the rows from `splitIdx` on
(so a train row at position `i` and a test row at position `j` sit at
table positions `i < splitIdx + j`); `train_arima` splits the raw close
series the same way.  No test observation precedes a train observation. -/
theorem C1_chronological_split_no_leakage (s : List ℚ) (ts : ℚ) :
    ((∀ i, i < (prepare_ml_data s ts).1.length →
        (prepare_ml_data s ts).1[i]? = ((mlRows s).map Prod.fst)[i]?) ∧
     (∀ j, (prepare_ml_data s ts).2.1[j]? =
        ((mlRows s).map Prod.fst)[splitIdx ((mlRows s).map Prod.fst).length ts + j]?) ∧
     (∀ i j, i < (prepare_ml_data s ts).1.length →
        i < splitIdx ((mlRows s).map Prod.fst).length ts + j)) ∧
    ((∀ i, i < (train_arima_split s ts).1.length →
        (train_arima_split s ts).1[i]? = s[i]?) ∧
     (∀ j, (train_arima_split s ts).2[j]? = s[splitIdx s.length ts + j]?) ∧
     (∀ i j, i < (train_arima_split s ts).1.length → i < splitIdx s.length ts + j)) := by
  refine ⟨⟨?_, ?_, ?_⟩, ⟨?_, ?_, ?_⟩⟩
  · intro i hi
    simp only [prepare_ml_data, List.length_take] at hi ⊢
    exact List.getElem?_take_of_lt (by omega)
  · intro j
    simp only [prepare_ml_data]
    exact List.getElem?_drop _ _ _
  · intro i j hi
    simp only [prepare_ml_data, List.length_take] at hi
    omega
  · intro i hi
    simp only [train_arima_split, List.length_take] at hi ⊢
    exact List.getElem?_take_of_lt (by omega)
  · intro j
    simp only [train_arima_split]
    exact List.getElem?_drop _ _ _
  · intro i j hi
    simp only [train_arima_split, List.length_take] at hi
    omega

/-- Witness for C1 at the concrete series `c33` with the default test
size 0.2: the first train row of the supervised table is the table's row
0. -/
theorem C1_witness :
    (prepare_ml_data c33 (1/5)).1[0]? = ((mlRows c33).map Prod.fst)[0]? := by
  apply (C1_chronological_split_no_leakage c33 (1/5)).1.1 0
  have h2 : ((mlRows c33).map Prod.fst).length = 2 := by decide
  have hk : splitIdx 2 (1/5) = 1 := by
    unfold splitIdx
    norm_num
  simp only [prepare_ml_data, List.length_take, h2, hk]
  omega

/-! ## C2 — what the feature vectors actually contain -/

/-- C2 counterexample: on the concrete series `c33`, the first feature
vector the trainer builds has 30 components — only the lags — not the 33
components (`lag_1..lag_30`, rolling mean, rolling std, price change) the
claim describes. -/
theorem C2_counterexample :
    ((mlRows c33).map Prod.fst).head?.map List.length = some 30 ∧
    (get_last_features c33).length = 30 ∧
    specFeatureVectorLength = 33 ∧ (30 : ℕ) ≠ specFeatureVectorLength := by
  exact ⟨by decide, by decide, by decide, by decide⟩

/-- C2 amended: the Trainer's rows and the Forecaster's seed vector are
built by the same procedure — the 30-entry lag vector `lagVec` — but none
of them contains the rolling mean, rolling standard deviation or price
change (those live only in `DataLoader.prepare_features`, which no caller
invokes). -/
theorem C2_amended (s : List ℚ) :
    (∀ row ∈ mlRows s,
      ∃ t, 30 ≤ t ∧ t + 1 < s.length ∧ row.1 = lagVec s t ∧ row.1.length = 30) ∧
    get_last_features s = lagVec s (s.length - 1) ∧
    (get_last_features s).length = 30 := by
  refine ⟨?_, rfl, by simp [get_last_features]⟩
  intro row hrow
  simp only [mlRows, List.mem_map, List.mem_filter, List.mem_range, Bool.and_eq_true,
    decide_eq_true_eq] at hrow
  obtain ⟨t, ⟨_, h30, hlt⟩, rfl⟩ := hrow
  exact ⟨t, h30, hlt, rfl, by simp [lagVec]⟩

/-- Witness for C2's amended claim at the concrete series `c33`. -/
theorem C2_amended_witness :
    ∃ t, 30 ≤ t ∧ t + 1 < c33.length ∧
      (lagVec c33 30, c33.getD 31 0).1 = lagVec c33 t ∧
      (lagVec c33 30, c33.getD 31 0).1.length = 30 :=
  (C2_amended c33).1 (lagVec c33 30, c33.getD 31 0) (by decide)

/-! ## C9 — the recursive feature update shifts the lag chain -/

/-- C9: after a prediction step, the updated feature vector has the fresh
prediction as `lag_1` (index 0) and, for `2 ≤ i ≤ 30`, its `lag_i` (index
`i-1`) is the previous vector's `lag_{i-1}` (index `i-2`); and the
recursion of `_recursive_forecast_ml` continues from exactly this updated
vector. -/
theorem C9_recursive_feature_update (v : List ℚ) (p : ℚ) (hv : v.length = 30) :
    (updateFeatures v p).head? = some p ∧
    (∀ i, 2 ≤ i → i ≤ 30 → (updateFeatures v p)[i - 1]? = v[i - 2]?) ∧
    (∀ step n, step v = some p →
      recForecastGo step (n + 1) v =
        (recForecastGo step n (updateFeatures v p)).map (fun rest => p :: rest)) := by
  refine ⟨rfl, ?_, ?_⟩
  · intro i h2 h30
    obtain ⟨m, rfl⟩ : ∃ m, i = m + 2 := ⟨i - 2, by omega⟩
    show (p :: v.take 29)[m + 1]? = v[m]?
    rw [List.getElem?_cons_succ]
    exact List.getElem?_take_of_lt (by omega)
  · intro step n hstep
    simp [recForecastGo, hstep]

/-- Witness for C9 at a concrete vector and step. -/
theorem C9_witness :
    (updateFeatures c4seed 2).head? = some 2 :=
  (C9_recursive_feature_update c4seed 2 (by decide)).1

/-! ## C4 — what a failing forecast step does to the path -/

/-- C4 counterexample: with a model that predicts 7 at the seed and fails
at the next step, the 3-day recursive forecast is `[5, 5, 5]` (the
current price repeated over the whole horizon): the already-produced
prediction 7 is NOT kept. -/
theorem C4_counterexample :
    recursive_forecast_ml c4step 5 3 c4seed = [5, 5, 5] ∧
    c4step c4seed = some 7 ∧
    (recursive_forecast_ml c4step 5 3 c4seed).head? ≠ some 7 := by
  exact ⟨by decide, by decide, by decide⟩

/-- C4 amended: a failing prediction step is caught locally and the WHOLE
horizon — not just the remainder — is filled with the current price,
discarding predictions already produced; in every case the returned path
has exactly `days` entries. -/
theorem C4_amended (step : List ℚ → Option ℚ) (cp : ℚ) (days : ℕ) (seed : List ℚ) :
    (recursive_forecast_ml step cp days seed).length = days ∧
    (recForecastGo step days seed = none →
      recursive_forecast_ml step cp days seed = List.replicate days cp) ∧
    (∀ l, recForecastGo step days seed = some l →
      recursive_forecast_ml step cp days seed = l) := by
  have hlen : ∀ n v l, recForecastGo step n v = some l → l.length = n := by
    intro n
    induction n with
    | zero =>
      intro v l h
      simp only [recForecastGo, Option.some_inj] at h
      simp [h.symm]
    | succ m ih =>
      intro v l h
      rw [recForecastGo] at h
      cases hs : step v with
      | none => rw [hs] at h; exact absurd h (by simp)
      | some p =>
        rw [hs] at h
        have h2 : Option.map (fun rest => p :: rest)
            (recForecastGo step m (updateFeatures v p)) = some l := h
        cases hg : recForecastGo step m (updateFeatures v p) with
        | none => rw [hg] at h2; exact absurd h2 (by simp)
        | some rest =>
          rw [hg] at h2
          simp only [Option.map_some', Option.some_inj] at h2
          have h3 := ih _ _ hg
          rw [h2.symm, List.length_cons, h3]
  unfold recursive_forecast_ml
  cases h : recForecastGo step days seed with
  | none =>
    refine ⟨by simp, fun _ => rfl, fun l hl => absurd hl (by simp)⟩
  | some l =>
    refine ⟨?_, fun hc => absurd hc (by simp), fun l2 hl2 => ?_⟩
    · exact hlen days seed l h
    · exact Option.some_inj.mp hl2

/-- Witness for C4's amended claim: a model failing at the first step on
a 2-day horizon yields the current price twice. -/
theorem C4_witness :
    recursive_forecast_ml (fun _ => none) 2 2 [] = List.replicate 2 2 :=
  (C4_amended (fun _ => none) 2 2 []).2.1 rfl

/-! ## C5 — the concrete scenario path -/

/-- C5 counterexample: on the scenario path with window 1, the detector
does NOT report a local minimum at day 6: its scan range
`range(window, days - window)` stops before the last `window` days, so
day 6 of the 7-day path is never examined.  The full extrema result is
`([(2, 80)], [(4, 100)])`. -/
theorem C5_counterexample :
    (6, (80 : ℚ)) ∉ (find_local_extrema c5path 1).1 ∧
    find_local_extrema c5path 1 = ([(2, 80)], [(4, 100)]) := by
  exact ⟨by decide, by decide⟩

/-- C5 amended: on the scenario path with window 1, detection finds the
local minimum at day 2 and the local maximum at day 4 (day 6 is outside
the scan range); the signals are exactly buy at day 2 and sell at day 4;
and simulating with investment 1000 buys 12.5 shares at 80, sells at 100,
ending with final value 1250 and profit 250 (25%). -/
theorem C5_amended :
    find_local_extrema c5path 1 = ([(2, 80)], [(4, 100)]) ∧
    generate_trading_signals [(2, 80)] [(4, 100)] =
      [⟨TradeAction.buy, 2, 80⟩, ⟨TradeAction.sell, 4, 100⟩] ∧
    calculate_profit c5path 1000 [⟨TradeAction.buy, 2, 80⟩, ⟨TradeAction.sell, 4, 100⟩] =
      Except.ok (250, ProfitResult.info ⟨1000, 1250, 250, 25,
        [⟨TxnKind.buyTxn, 2, 80, 25/2⟩, ⟨TxnKind.sellTxn, 4, 100, 1250⟩]⟩) := by
  refine ⟨by decide, by decide, ?_⟩
  have hlast : c5path.getLast? = some 80 := by decide
  have hlen : c5path.length = 7 := by decide
  norm_num [calculate_profit, profitStep, pydiv, pyLast, List.foldlM,
    exceptBind_ok, exceptBind_error, exceptMap_ok, exceptMap_error, hlast, hlen]

/-! ## C6 — signals strictly alternate starting with a buy -/

/-- The alternation tracking predicate: every signal emitted from state
`cur` is a sell if `cur` is `'buy'` and a buy otherwise, and the rest
alternates from the emitted action. -/
def AltFrom : TradeAction → List TradingSignal → Prop
  | _, [] => True
  | .buy, s :: rest => s.action = .sell ∧ AltFrom s.action rest
  | _, s :: rest => s.action = .buy ∧ AltFrom s.action rest

/-- The signal walk respects `AltFrom` from any starting state. -/
theorem signalsGo_altFrom (bp sp pts : List ExtPoint) :
    ∀ cur, AltFrom cur (signalsGo bp sp cur pts) := by
  induction pts with
  | nil => intro cur; cases cur <;> exact trivial
  | cons hd tl ih =>
    intro cur
    obtain ⟨d, p⟩ := hd
    rw [signalsGo]
    by_cases h1 : (d, p) ∈ bp ∧ cur ≠ TradeAction.buy
    · rw [if_pos h1]
      cases cur with
      | buy => exact absurd rfl h1.2
      | sell => exact ⟨rfl, ih TradeAction.buy⟩
      | hold => exact ⟨rfl, ih TradeAction.buy⟩
    · rw [if_neg h1]
      by_cases h2 : (d, p) ∈ sp ∧ cur = TradeAction.buy
      · rw [if_pos h2]
        obtain ⟨-, rfl⟩ := h2
        exact ⟨rfl, ih TradeAction.sell⟩
      · rw [if_neg h2]
        exact ih cur

/-- `AltFrom` forces adjacent emitted actions to differ. -/
theorem altFrom_ne_chain (l : List TradingSignal) :
    ∀ cur, AltFrom cur l → List.Chain' (fun a b => a.action ≠ b.action) l := by
  induction l with
  | nil => intro cur _; exact List.chain'_nil
  | cons s rest ih =>
    intro cur h
    have hrest : AltFrom s.action rest := by
      cases cur with
      | buy => exact h.2
      | sell => exact h.2
      | hold => exact h.2
    cases rest with
    | nil => exact List.chain'_singleton s
    | cons t rest2 =>
      refine List.chain'_cons.mpr ⟨?_, ih s.action hrest⟩
      cases hsa : s.action with
      | buy =>
        rw [hsa] at hrest
        rw [hrest.1]
        exact fun hc => by cases hc
      | sell =>
        rw [hsa] at hrest
        rw [hrest.1]
        exact fun hc => by cases hc
      | hold =>
        rw [hsa] at hrest
        rw [hrest.1]
        exact fun hc => by cases hc

/-- C6: for every set of buy and sell points, the generated signal
sequence starts with a buy (if nonempty) and never repeats an action on
two consecutive signals. -/
theorem C6_alternation (buyPts sellPts : List ExtPoint) :
    (∀ s, (generate_trading_signals buyPts sellPts).head? = some s →
      s.action = TradeAction.buy) ∧
    List.Chain' (fun a b => a.action ≠ b.action)
      (generate_trading_signals buyPts sellPts) := by
  have halt : AltFrom TradeAction.hold
      (signalsGo buyPts sellPts TradeAction.hold (sortByDay (buyPts ++ sellPts))) :=
    signalsGo_altFrom buyPts sellPts (sortByDay (buyPts ++ sellPts)) TradeAction.hold
  constructor
  · intro s hs
    unfold generate_trading_signals at hs
    cases hl : signalsGo buyPts sellPts TradeAction.hold (sortByDay (buyPts ++ sellPts)) with
    | nil => rw [hl] at hs; cases hs
    | cons a rest =>
      rw [hl] at hs halt
      simp only [List.head?_cons, Option.some_inj] at hs
      rw [hs.symm]
      exact halt.1
  · exact altFrom_ne_chain _ TradeAction.hold halt

/-- Witness for C6: on the single buy point `(1, 5)` the first (and only)
signal is a buy. -/
theorem C6_witness :
    (generate_trading_signals [(1, (5:ℚ))] []).head?.map TradingSignal.action
      = some TradeAction.buy := by
  have h : (generate_trading_signals [(1, (5:ℚ))] []).head? =
      some ⟨TradeAction.buy, 1, 5⟩ := by decide
  rw [h, Option.map_some',
    (C6_alternation [(1, (5:ℚ))] []).1 ⟨TradeAction.buy, 1, 5⟩ h]

/-! ## C3 and C10 — model selection -/

theorem bestRmse_none {μ : Type} :
    bestRmse (none : Option (μ × WithTop ℚ × ModelName)) = ⊤ := rfl

/-- The selection loop computes the first strict minimum (below the
running best's RMSE) of the success list. -/
theorem selectLoop_eq {μ : Type} :
    ∀ (cands : List (ModelName × Option (Option μ × WithTop ℚ)))
      (best : Option (μ × WithTop ℚ × ModelName)),
      selectLoop best cands =
        match firstMinBelow (bestRmse best) (successes cands) with
        | none => best
        | some w => some (w.2.1, w.2.2, w.1) := by
  intro cands
  induction cands with
  | nil => intro best; rfl
  | cons c rest ih =>
    intro best
    obtain ⟨name, res⟩ := c
    rcases res with - | ⟨om, r⟩
    · rw [show selectLoop best ((name, none) :: rest) = selectLoop best rest from rfl,
        show successes ((name, none) :: rest) = successes rest from rfl]
      exact ih best
    · rcases om with - | m
      · rw [show selectLoop best ((name, some (none, r)) :: rest) = selectLoop best rest from rfl,
          show successes ((name, some (none, r)) :: rest) = successes rest from rfl]
        exact ih best
      · rw [show successes ((name, some (some m, r)) :: rest) =
            (name, m, r) :: successes rest from rfl]
        rw [selectLoop]
        by_cases hr : r < bestRmse best
        · rw [if_pos hr, ih (some (m, r, name))]
          rw [firstMinBelow, if_pos hr]
          rw [show bestRmse (some (m, r, name)) = r from rfl]
          cases firstMinBelow r (successes rest) with
          | none => rfl
          | some y => rfl
        · rw [if_neg hr, ih best]
          rw [firstMinBelow, if_neg hr]

/-- If nothing beats the bound, `firstMinBelow` returns nothing. -/
theorem firstMinBelow_none {μ : Type} :
    ∀ (l : List (ModelName × μ × WithTop ℚ)) (b : WithTop ℚ),
      (∀ x ∈ l, ¬ x.2.2 < b) → firstMinBelow b l = none := by
  intro l
  induction l with
  | nil => intro b _; rfl
  | cons x xs ih =>
    intro b h
    rw [firstMinBelow, if_neg (h x (List.mem_cons_self x xs))]
    exact ih b (fun y hy => h y (List.mem_cons_of_mem x hy))

/-- The selected element is one of the candidates. -/
theorem firstMinBelow_mem {μ : Type} :
    ∀ (l : List (ModelName × μ × WithTop ℚ)) (b : WithTop ℚ) (w),
      firstMinBelow b l = some w → w ∈ l := by
  intro l
  induction l with
  | nil => intro b w h; cases h
  | cons x xs ih =>
    intro b w h
    rw [firstMinBelow] at h
    by_cases hx : x.2.2 < b
    · rw [if_pos hx] at h
      cases hfm : firstMinBelow x.2.2 xs with
      | none =>
        rw [hfm] at h
        have h2 : some x = some w := h
        exact Option.some_inj.mp h2 ▸ List.mem_cons_self x xs
      | some y =>
        rw [hfm] at h
        have h2 : some y = some w := h
        exact List.mem_cons_of_mem x (Option.some_inj.mp h2 ▸ ih _ _ hfm)
    · rw [if_neg hx] at h
      exact List.mem_cons_of_mem x (ih _ _ h)

/-- The first element below the bound that also minimizes the whole list
(strictly below everything earlier) is what `firstMinBelow` returns. -/
theorem firstMinBelow_first {μ : Type} :
    ∀ (l : List (ModelName × μ × WithTop ℚ)) (b : WithTop ℚ) (k : ℕ) (w),
      l[k]? = some w → w.2.2 < b →
      (∀ j y, j < k → l[j]? = some y → w.2.2 < y.2.2) →
      (∀ y ∈ l, w.2.2 ≤ y.2.2) →
      firstMinBelow b l = some w := by
  intro l
  induction l with
  | nil => intro b k w hk; simp at hk
  | cons x xs ih =>
    intro b k w hk hwb hstrict hle
    cases k with
    | zero =>
      have hw : x = w := by simpa using hk
      rw [firstMinBelow, if_pos (hw ▸ hwb)]
      have hnone : firstMinBelow x.2.2 xs = none := by
        apply firstMinBelow_none
        intro y hy
        exact not_lt.mpr (hw ▸ hle y (List.mem_cons_of_mem x hy))
      rw [hnone]
      exact congrArg some hw
    | succ k2 =>
      have hx : w.2.2 < x.2.2 := hstrict 0 x (Nat.succ_pos k2) (by simp)
      have hk2 : xs[k2]? = some w := by simpa using hk
      have hstrict2 : ∀ j y, j < k2 → xs[j]? = some y → w.2.2 < y.2.2 :=
        fun j y hj hy => hstrict (j + 1) y (Nat.succ_lt_succ hj) (by simpa using hy)
      have hle2 : ∀ y ∈ xs, w.2.2 ≤ y.2.2 := fun y hy => hle y (List.mem_cons_of_mem x hy)
      rw [firstMinBelow]
      by_cases hxb : x.2.2 < b
      · rw [if_pos hxb, ih x.2.2 k2 w hk2 hx hstrict2 hle2]
      · rw [if_neg hxb]
        exact ih b k2 w hk2 hwb hstrict2 hle2

/-- Every success of the four-candidate list carries one of the three
3-tuple names — never LSTM, whose 4-tuple always fails the unpacking —
and a finite (coerced from `ℚ`) RMSE. -/
theorem fourCands_success_shape (μ : Type) (f1 f2 f3 f4 : Option (μ × ℚ × ℚ)) :
    ∀ w ∈ successes (fourCands μ f1 f2 f3 f4),
      (w.1 = ModelName.randomForest ∨ w.1 = ModelName.ridgeRegression ∨
        w.1 = ModelName.arima) ∧ w.2.2 < ⊤ := by
  intro w hw
  rcases f1 with - | ⟨m1, r1, p1⟩ <;> rcases f2 with - | ⟨m2, r2, p2⟩ <;>
    rcases f3 with - | ⟨m3, r3, p3⟩ <;> rcases f4 with - | ⟨m4, r4, p4⟩ <;>
    simp only [fourCands, train_random_forest, train_ridge_regression, train_arima,
      train_simple_lstm, loopUnpack, successes, List.mem_cons, List.not_mem_nil,
      or_false] at hw <;>
    first
      | exact hw.elim
      | (rcases hw with rfl | rfl | rfl <;> exact ⟨by simp, WithTop.coe_lt_top _⟩)

/-- C3: `train_and_select_best` returns `(none, inf, Persistence)` when
every candidate failed, and otherwise the success with the strictly
lowest RMSE, ties resolved in favor of the candidate trained first (the
winner is ≤ all successes and strictly below every earlier success). -/
theorem C3_selection (μ : Type) (rfFit ridgeFit arFit lstmFit : Option (μ × ℚ × ℚ)) :
    (successes (fourCands μ rfFit ridgeFit arFit lstmFit) = [] →
      train_and_select_best μ rfFit ridgeFit arFit lstmFit =
        (none, ⊤, ModelName.persistence)) ∧
    (∀ (k : ℕ) (w : ModelName × μ × WithTop ℚ),
      (successes (fourCands μ rfFit ridgeFit arFit lstmFit))[k]? = some w →
      (∀ (j : ℕ) (y : ModelName × μ × WithTop ℚ), j < k →
        (successes (fourCands μ rfFit ridgeFit arFit lstmFit))[j]? = some y →
        w.2.2 < y.2.2) →
      (∀ y ∈ successes (fourCands μ rfFit ridgeFit arFit lstmFit), w.2.2 ≤ y.2.2) →
      train_and_select_best μ rfFit ridgeFit arFit lstmFit = (some w.2.1, w.2.2, w.1)) ∧
    (successes (fourCands μ rfFit ridgeFit arFit lstmFit) ≠ [] →
      ∃ w ∈ successes (fourCands μ rfFit ridgeFit arFit lstmFit),
        train_and_select_best μ rfFit ridgeFit arFit lstmFit =
          (some w.2.1, w.2.2, w.1)) := by
  refine ⟨?_, ?_, ?_⟩
  · intro hS
    unfold train_and_select_best trainAndSelectBest
    rw [selectLoop_eq, bestRmse_none, hS]
    rfl
  · intro k w hk hstrict hle
    have hmem : w ∈ successes (fourCands μ rfFit ridgeFit arFit lstmFit) := by
      have := List.getElem?_eq_some_iff.mp hk
      obtain ⟨h1, h2⟩ := this
      exact h2 ▸ List.getElem_mem h1
    have htop : w.2.2 < ⊤ :=
      (fourCands_success_shape μ rfFit ridgeFit arFit lstmFit w hmem).2
    have hfm : firstMinBelow ⊤ (successes (fourCands μ rfFit ridgeFit arFit lstmFit))
        = some w :=
      firstMinBelow_first _ ⊤ k w hk htop hstrict hle
    unfold train_and_select_best trainAndSelectBest
    rw [selectLoop_eq, bestRmse_none, hfm]
  · intro hne
    obtain ⟨x, xs, hSx⟩ : ∃ x xs,
        successes (fourCands μ rfFit ridgeFit arFit lstmFit) = x :: xs := by
      cases hS : successes (fourCands μ rfFit ridgeFit arFit lstmFit) with
      | nil => exact absurd hS hne
      | cons a b => exact ⟨a, b, rfl⟩
    have hx : x.2.2 < ⊤ := by
      refine (fourCands_success_shape μ rfFit ridgeFit arFit lstmFit x ?_).2
      rw [hSx]
      exact List.mem_cons_self x xs
    obtain ⟨w, hw⟩ : ∃ w, firstMinBelow ⊤ (x :: xs) = some w := by
      rw [firstMinBelow, if_pos hx]
      cases firstMinBelow x.2.2 xs with
      | none => exact ⟨x, rfl⟩
      | some y => exact ⟨y, rfl⟩
    have hmem : w ∈ successes (fourCands μ rfFit ridgeFit arFit lstmFit) := by
      rw [hSx]
      exact firstMinBelow_mem _ _ _ hw
    refine ⟨w, hmem, ?_⟩
    unfold train_and_select_best trainAndSelectBest
    rw [selectLoop_eq, bestRmse_none, hSx, hw]

/-- Witness for C3 at the all-failed instance: every candidate's fit
raised, so the trainer returns the persistence fallback without raising
(the embedding is total). -/
theorem C3_witness :
    train_and_select_best ℕ none none none none = (none, ⊤, ModelName.persistence) :=
  (C3_selection ℕ none none none none).1 rfl

/-- C10: the LSTM candidate can never win — its 4-tuple result always
fails the loop's 3-variable unpacking, so the returned name is one of
Random Forest, Ridge Regression, ARIMA, or Persistence, never LSTM. -/
theorem C10_lstm_never_selected (μ : Type)
    (rfFit ridgeFit arFit lstmFit : Option (μ × ℚ × ℚ)) :
    (train_and_select_best μ rfFit ridgeFit arFit lstmFit).2.2 ≠ ModelName.lstm ∧
    ((train_and_select_best μ rfFit ridgeFit arFit lstmFit).2.2 = ModelName.randomForest ∨
     (train_and_select_best μ rfFit ridgeFit arFit lstmFit).2.2 = ModelName.ridgeRegression ∨
     (train_and_select_best μ rfFit ridgeFit arFit lstmFit).2.2 = ModelName.arima ∨
     (train_and_select_best μ rfFit ridgeFit arFit lstmFit).2.2 = ModelName.persistence) := by
  have hmain : (train_and_select_best μ rfFit ridgeFit arFit lstmFit).2.2 =
      ModelName.randomForest ∨
      (train_and_select_best μ rfFit ridgeFit arFit lstmFit).2.2 =
        ModelName.ridgeRegression ∨
      (train_and_select_best μ rfFit ridgeFit arFit lstmFit).2.2 = ModelName.arima ∨
      (train_and_select_best μ rfFit ridgeFit arFit lstmFit).2.2 =
        ModelName.persistence := by
    unfold train_and_select_best trainAndSelectBest
    rw [selectLoop_eq, bestRmse_none]
    cases hfm : firstMinBelow ⊤ (successes (fourCands μ rfFit ridgeFit arFit lstmFit)) with
    | none => simp
    | some w =>
      have hmem := firstMinBelow_mem _ _ _ hfm
      have hshape := (fourCands_success_shape μ rfFit ridgeFit arFit lstmFit w hmem).1
      rcases hshape with h | h | h
      · exact Or.inl h
      · exact Or.inr (Or.inl h)
      · exact Or.inr (Or.inr (Or.inl h))
  refine ⟨?_, hmain⟩
  rcases hmain with h | h | h | h <;> rw [h] <;> intro hc <;> cases hc

/-! ## C7 — the portfolio simulation invariant -/

/-- One simulation step from a fully-cash-or-fully-invested state at a
positive signal price succeeds and preserves the state shape. -/
theorem profitStep_ok_inv (sig : TradingSignal) (hp : 0 < sig.price) :
    ∀ st : ℚ × ℚ × List Transaction,
      ((0 < st.1 ∧ st.2.1 = 0) ∨ (st.1 = 0 ∧ 0 < st.2.1)) →
      ∃ st2, profitStep st sig = Except.ok st2 ∧
        ((0 < st2.1 ∧ st2.2.1 = 0) ∨ (st2.1 = 0 ∧ 0 < st2.2.1)) := by
  intro st hinv
  unfold profitStep
  by_cases h1 : sig.action = TradeAction.buy ∧ 0 < st.1
  · rw [if_pos h1]
    unfold pydiv
    rw [if_neg (ne_of_gt hp), exceptMap_ok]
    refine ⟨_, rfl, ?_⟩
    rcases hinv with ⟨hc, hs⟩ | ⟨hc, hs⟩
    · right
      refine ⟨rfl, ?_⟩
      show 0 < st.2.1 + st.1 / sig.price
      rw [hs, zero_add]
      exact div_pos h1.2 hp
    · exact absurd h1.2 (by rw [hc]; exact lt_irrefl 0)
  · rw [if_neg h1]
    by_cases h2 : sig.action = TradeAction.sell ∧ 0 < st.2.1
    · rw [if_pos h2]
      refine ⟨_, rfl, Or.inl ⟨?_, rfl⟩⟩
      exact mul_pos h2.2 hp
    · rw [if_neg h2]
      exact ⟨_, rfl, hinv⟩

/-- The whole signal loop succeeds from a valid state when all signal
prices are positive, and its final state is valid. -/
theorem foldlM_profitStep_ok :
    ∀ (sigs : List TradingSignal) (st : ℚ × ℚ × List Transaction),
      (∀ s ∈ sigs, 0 < s.price) →
      ((0 < st.1 ∧ st.2.1 = 0) ∨ (st.1 = 0 ∧ 0 < st.2.1)) →
      ∃ st2, sigs.foldlM profitStep st = Except.ok st2 ∧
        ((0 < st2.1 ∧ st2.2.1 = 0) ∨ (st2.1 = 0 ∧ 0 < st2.2.1)) := by
  intro sigs
  induction sigs with
  | nil => intro st _ hinv; exact ⟨st, rfl, hinv⟩
  | cons s rest ih =>
    intro st hpos hinv
    obtain ⟨st1, hst1, hinv1⟩ := profitStep_ok_inv s (hpos s (List.mem_cons_self s rest)) st hinv
    rw [List.foldlM_cons, hst1, exceptBind_ok]
    exact ih st1 (fun x hx => hpos x (List.mem_cons_of_mem s hx)) hinv1

/-- Every successfully reached prefix state of the signal loop is valid. -/
theorem foldlM_profitStep_prefix :
    ∀ (sigs : List TradingSignal) (st : ℚ × ℚ × List Transaction),
      (∀ s ∈ sigs, 0 < s.price) →
      ((0 < st.1 ∧ st.2.1 = 0) ∨ (st.1 = 0 ∧ 0 < st.2.1)) →
      ∀ k st2, (sigs.take k).foldlM profitStep st = Except.ok st2 →
        ((0 < st2.1 ∧ st2.2.1 = 0) ∨ (st2.1 = 0 ∧ 0 < st2.2.1)) := by
  intro sigs
  induction sigs with
  | nil =>
    intro st _ hinv k st2 h
    rw [List.take_nil] at h
    have h2 : Except.ok (ε := PyErr) st = Except.ok st2 := h
    injection h2 with h3
    rw [h3.symm]
    exact hinv
  | cons s rest ih =>
    intro st hpos hinv k st2 h
    cases k with
    | zero =>
      rw [List.take_zero] at h
      have h2 : Except.ok (ε := PyErr) st = Except.ok st2 := h
      injection h2 with h3
      rw [h3.symm]
      exact hinv
    | succ k2 =>
      rw [List.take_succ_cons, List.foldlM_cons] at h
      obtain ⟨st1, hst1, hinv1⟩ := profitStep_ok_inv s (hpos s (List.mem_cons_self s rest)) st hinv
      rw [hst1, exceptBind_ok] at h
      exact ih st1 (fun x hx => hpos x (List.mem_cons_of_mem s hx)) hinv1 k2 st2 h

/-- C7 amended: for every non-empty signal sequence with positive prices,
positive investment and non-empty forecast path, the loop succeeds, every
intermediate state is fully-cash (`cash > 0, shares = 0`) or
fully-invested (`cash = 0, shares > 0`), held shares are liquidated at
the last forecast price as a recorded final transaction, and the reported
profit and percentage are `final - investment` and
`profit / investment * 100`. -/
theorem C7_portfolio_invariant (forecast : List ℚ) (amount : ℚ)
    (sigs : List TradingSignal) (hne : sigs ≠ [])
    (hpos : ∀ s ∈ sigs, 0 < s.price) (hamt : 0 < amount) (hf : forecast ≠ []) :
    ∃ cash shares txns,
      sigs.foldlM profitStep (amount, 0, []) = Except.ok (cash, shares, txns) ∧
      (∀ k cash2 shares2 txns2,
        (sigs.take k).foldlM profitStep (amount, 0, []) =
          Except.ok (cash2, shares2, txns2) →
        (0 < cash2 ∧ shares2 = 0) ∨ (cash2 = 0 ∧ 0 < shares2)) ∧
      ∃ pinfo : ProfitInfo,
        calculate_profit forecast amount sigs =
          Except.ok (pinfo.profit, ProfitResult.info pinfo) ∧
        pinfo.initial_investment = amount ∧
        pinfo.profit = pinfo.final_value - amount ∧
        pinfo.profit_percent = pinfo.profit / amount * 100 ∧
        (0 < shares → ∃ lastP, forecast.getLast? = some lastP ∧
          pinfo.final_value = shares * lastP ∧
          pinfo.transactions =
            txns ++ [⟨TxnKind.finalSale, forecast.length, lastP, shares * lastP⟩]) ∧
        (shares = 0 → pinfo.final_value = cash ∧ pinfo.transactions = txns) := by
  obtain ⟨⟨cash, shares, txns⟩, hfold, hinvf⟩ :=
    foldlM_profitStep_ok sigs (amount, 0, []) hpos (Or.inl ⟨hamt, rfl⟩)
  refine ⟨cash, shares, txns, hfold, ?_, ?_⟩
  · intro k c2 s2 t2 h
    exact foldlM_profitStep_prefix sigs (amount, 0, []) hpos (Or.inl ⟨hamt, rfl⟩)
      k (c2, s2, t2) h
  · obtain ⟨s0, rest, rfl⟩ := List.exists_cons_of_ne_nil hne
    unfold calculate_profit
    try dsimp only
    rw [hfold, exceptBind_ok]
    try dsimp only
    rcases hinvf with ⟨hc, hs⟩ | ⟨hc, hs⟩
    · have hs0 : shares = 0 := hs
      have hns : ¬ 0 < shares := by rw [hs0]; exact lt_irrefl 0
      rw [if_neg hns, exceptBind_ok]
      try dsimp only
      unfold pydiv
      rw [if_neg (ne_of_gt hamt), exceptBind_ok]
      try dsimp only
      refine ⟨⟨amount, cash, cash - amount, (cash - amount) / amount * 100, txns⟩,
        rfl, rfl, rfl, rfl, ?_, ?_⟩
      · intro hcontra
        rw [hs0] at hcontra
        exact absurd hcontra (lt_irrefl 0)
      · intro _
        exact ⟨rfl, rfl⟩
    · have hs1 : 0 < shares := hs
      rw [if_pos hs1]
      obtain ⟨lastP, hlast⟩ : ∃ p, forecast.getLast? = some p := by
        cases hfc : forecast.getLast? with
        | none => exact absurd (List.getLast?_eq_none_iff.mp hfc) hf
        | some p => exact ⟨p, rfl⟩
      simp only [pyLast, hlast, exceptBind_ok]
      try dsimp only
      unfold pydiv
      rw [if_neg (ne_of_gt hamt)]
      simp only [exceptBind_ok]
      try dsimp only
      refine ⟨⟨amount, shares * lastP, shares * lastP - amount,
        (shares * lastP - amount) / amount * 100,
        txns ++ [⟨TxnKind.finalSale, forecast.length, lastP, shares * lastP⟩]⟩,
        rfl, rfl, rfl, rfl, ?_, ?_⟩
      · intro _
        exact ⟨lastP, rfl, rfl, rfl⟩
      · intro hcontra
        rw [hcontra] at hs1
        exact absurd hs1 (lt_irrefl 0)

/-- C7 counterexample: on a signal sequence containing a sell at price 0
(with positive investment), the loop ends with cash = 0 AND shares = 0 —
the claimed invariant fails at that step, so the claim needs the signal
prices to be positive. -/
theorem C7_counterexample :
    c7sigs.foldlM profitStep ((1000 : ℚ), 0, []) =
      Except.ok (0, 0, [⟨TxnKind.buyTxn, 0, 1, 1000⟩, ⟨TxnKind.sellTxn, 1, 0, 0⟩]) ∧
    ¬ ((0 < (0 : ℚ) ∧ (0 : ℚ) = 0) ∨ ((0 : ℚ) = 0 ∧ 0 < (0 : ℚ))) := by
  constructor
  · norm_num [c7sigs, profitStep, pydiv, List.foldlM, exceptBind_ok, exceptMap_ok]
  · simp

/-- Witness for C7's amended claim at a concrete buy-only sequence. -/
theorem C7_witness :
    ∃ cash shares txns,
      [(⟨TradeAction.buy, 0, 10⟩ : TradingSignal)].foldlM profitStep ((1000 : ℚ), 0, []) =
        Except.ok (cash, shares, txns) ∧
      (∀ k cash2 shares2 txns2,
        ([(⟨TradeAction.buy, 0, 10⟩ : TradingSignal)].take k).foldlM profitStep
            ((1000 : ℚ), 0, []) = Except.ok (cash2, shares2, txns2) →
        (0 < cash2 ∧ shares2 = 0) ∨ (cash2 = 0 ∧ 0 < shares2)) ∧
      ∃ pinfo : ProfitInfo,
        calculate_profit [(50 : ℚ), 60] 1000 [⟨TradeAction.buy, 0, 10⟩] =
          Except.ok (pinfo.profit, ProfitResult.info pinfo) ∧
        pinfo.initial_investment = 1000 ∧
        pinfo.profit = pinfo.final_value - 1000 ∧
        pinfo.profit_percent = pinfo.profit / 1000 * 100 ∧
        (0 < shares → ∃ lastP, ([(50 : ℚ), 60]).getLast? = some lastP ∧
          pinfo.final_value = shares * lastP ∧
          pinfo.transactions =
            txns ++ [⟨TxnKind.finalSale, ([(50 : ℚ), 60]).length, lastP, shares * lastP⟩]) ∧
        (shares = 0 → pinfo.final_value = cash ∧ pinfo.transactions = txns) :=
  C7_portfolio_invariant [(50 : ℚ), 60] 1000 [⟨TradeAction.buy, 0, 10⟩]
    (by decide) (by decide) (by decide) (by decide)

/-! ## C8 — failures and the fallback path -/

/-- The buy-and-hold fallback succeeds whenever the path is nonempty, its
first price is nonzero, and the investment is nonzero. -/
theorem fallback_ok (f : List ℚ) (amount : ℚ) (hne : f ≠ [])
    (h0 : f.head? ≠ some 0) (hamt : amount ≠ 0) :
    ∃ r, generate_fallback_recommendations f amount = Except.ok r := by
  obtain ⟨a, t, rfl⟩ := List.exists_cons_of_ne_nil hne
  have ha0 : a ≠ 0 := by
    intro h
    exact h0 (by rw [show (a :: t).head? = some a from rfl, h])
  obtain ⟨g, hg⟩ : ∃ g, (a :: t).getLast? = some g := by
    cases hfc : (a :: t).getLast? with
    | none => exact absurd (List.getLast?_eq_none_iff.mp hfc) (List.cons_ne_nil a t)
    | some p => exact ⟨p, rfl⟩
  unfold generate_fallback_recommendations pyFirst pyLast pydiv
  rw [hg]
  simp only [List.head?_cons, exceptBind_ok]
  rw [if_neg ha0]
  simp only [exceptBind_ok]
  rw [if_neg hamt]
  simp only [exceptBind_ok]
  exact ⟨_, rfl⟩

/-- C8 amended: any failure inside the primary strategy path is caught
by the handler and `generate_recommendations` returns normally with a
recommendation text and a profit record for every nonempty forecast path
with nonzero first price and nonzero investment amount — but not for
every input: on the empty path the fallback's first-element access raises
`IndexError` inside the `except` handler and the exception propagates
(`C8_counterexample`).  The nonzero hypotheses confine the statement to
the domain where CPython, numpy and rational division agree. -/
theorem C8_always_returns (f : List ℚ) (amount : ℚ) (hne : f ≠ [])
    (h0 : f.head? ≠ some 0) (hamt : amount ≠ 0) :
    ∃ r, generate_recommendations f amount = Except.ok r := by
  obtain ⟨r0, hr0⟩ := fallback_ok f amount hne h0 hamt
  unfold generate_recommendations
  cases hb : recommendations_body f amount with
  | ok r => exact ⟨r, rfl⟩
  | error e => exact ⟨r0, hr0⟩

/-- C8 counterexample: on the EMPTY forecast path, no extrema are found,
so the `try` body itself calls the fallback, whose
`forecast_prices[0]` raises `IndexError`; the `except` handler then calls
the fallback again, which raises the same `IndexError` inside the
handler, and it propagates: `generate_recommendations` does NOT return
normally on every path.  (List indexing raises regardless of whether the
elements would have been CPython or numpy scalars, and no division is
ever reached, so this input is insensitive to numpy's non-raising
zero-division.) -/
theorem C8_counterexample :
    generate_recommendations ([] : List ℚ) 1000 =
      Except.error PyErr.indexError := by
  decide

/-- Witness for C8's amended claim at a concrete short path. -/
theorem C8_witness :
    ∃ r, generate_recommendations [(10 : ℚ), 20] 1000 = Except.ok r :=
  C8_always_returns [(10 : ℚ), 20] 1000 (by decide) (by decide) (by decide)

end ForecastProject
